import Mathlib

/-!
# Verification of `malayalam_extractor.py`

A shallow embedding of the Common-Crawl Malayalam data extractor
(`src/malayalam_extractor.py`) together with proofs of the frozen claims
about it.

Modelling conventions:

* A Python `str` is modelled as a `List Char` (a sequence of Unicode code
  points); Python `len` is `List.length`.
* The two external library capabilities the script relies on are modelled
  at the granularity the script uses them:
  - `BeautifulSoup(html, 'html.parser')` yields a parse tree; we model the
    already-parsed document as a list of `Html` nodes.  `soup(['style',
    'script'])` followed by `tag.decompose()` removes every element named
    `style` or `script` anywhere in the tree, and `soup.stripped_strings`
    yields every text node stripped of surrounding whitespace, skipping
    whitespace-only nodes, in document order.
  - `warcio.ArchiveIterator` yields records with a `rec_type` and a payload;
    we model a record as its `rec_type` string plus its payload already
    decoded and parsed into a document.
* File-system side effects are modelled with explicit state: a file opened
  with mode `'a'` appends to prior contents, a file opened with mode `'w'`
  truncates.  CSV log files are modelled as lists of structured rows.
* Wall-clock time and the floating-point size/duration fields of the
  metrics row (`Input File Size (MB)`, `Output File Size (KB)`,
  `Time Taken (Minutes)`) are environment measurements with float
  arithmetic; they are not modelled.  The claims only concern the presence,
  count and name/path fields of rows.
-/

namespace MalExtract

/-! ## Constants of the script -/

def MAX_RETRIES : Nat := 20

def RETRY_DELAY : Nat := 10

def OUTPUT_DIRECTORY : String := "Extracted_files/"

def EXTRACTED_TEXT_DIRECTORY : String := "Extracted Texts/"

/-! ## ScriptFilter: the Malayalam-run extraction

`re.findall(r'[ഀ-ൿ]+', s)` returns the maximal runs of
characters in the Malayalam block, left to right. -/

/-- A character matched by the class `[ഀ-ൿ]` of the regex on
line 69: its code point lies in the Malayalam block. -/
def isMalayalamChar (c : Char) : Bool :=
  0x0D00 ≤ c.toNat && c.toNat ≤ 0x0D7F

/-- Accumulator-based scan embedding `re.findall(r'[ഀ-ൿ]+', s)`:
`acc` holds the reversed run currently being read. -/
def malRunsAux : List Char → List Char → List (List Char)
  | [], acc => if acc.isEmpty then [] else [acc.reverse]
  | c :: cs, acc =>
    if isMalayalamChar c then malRunsAux cs (c :: acc)
    else if acc.isEmpty then malRunsAux cs []
    else acc.reverse :: malRunsAux cs []

/-- `re.findall(r'[ഀ-ൿ]+', s)` from line 69. -/
def findallMalayalam (cs : List Char) : List (List Char) :=
  malRunsAux cs []

/-- The specification's description of the same value: the maximal runs of
target-script characters are the nonempty chunks obtained by splitting the
input at every character outside the script range.  Used to state the
refinement claims; `findallMalayalam` is proved equal to it below. -/
def maximalMalayalamRuns (cs : List Char) : List (List Char) :=
  (cs.splitOnP (fun c => !isMalayalamChar c)).filter (fun r => !r.isEmpty)

/-- Python's `sep.join(parts)`. -/
def joinWith (sep : List Char) : List (List Char) → List Char
  | [] => []
  | [x] => x
  | x :: y :: xs => x ++ sep ++ joinWith sep (y :: xs)

/-! ## MarkupReducer: the HTML side

The document model and the three tree traversals the script performs
through BeautifulSoup. -/

/-- A parsed HTML node: a text node, or an element with a tag name and
children.  The script's `html_content` argument is modelled as the list of
top-level nodes of its parse tree. -/
inductive Html where
  | text : List Char → Html
  | elem : String → List Html → Html

/-- Python's `str.strip()`: remove leading and trailing whitespace. -/
def pyStrip (cs : List Char) : List Char :=
  ((cs.dropWhile Char.isWhitespace).reverse.dropWhile Char.isWhitespace).reverse

mutual

/-- Lines 65–66: `for tag in soup(['style', 'script']): tag.decompose()`.
Every element tagged `style` or `script`, at any depth, is removed from
the tree (`none` when the node itself is removed). -/
def decomposeStyleScript : Html → Option Html
  | .text s => some (.text s)
  | .elem n cs =>
    if n = "style" ∨ n = "script" then none
    else some (.elem n (decomposeStyleScriptList cs))

/-- `decomposeStyleScript` mapped over a forest, dropping removed nodes. -/
def decomposeStyleScriptList : List Html → List Html
  | [] => []
  | h :: t =>
    match decomposeStyleScript h with
    | none => decomposeStyleScriptList t
    | some h2 => h2 :: decomposeStyleScriptList t

end

mutual

/-- `soup.stripped_strings`: every text node of the tree, stripped of
surrounding whitespace, skipping nodes that are whitespace-only, in
document order. -/
def strippedStrings : Html → List (List Char)
  | .text s =>
    let s2 := pyStrip s
    if s2.isEmpty then [] else [s2]
  | .elem _ cs => strippedStringsList cs

/-- `strippedStrings` over a forest, in order. -/
def strippedStringsList : List Html → List (List Char)
  | [] => []
  | h :: t => strippedStrings h ++ strippedStringsList t

end

mutual

/-- The specification's description of the reducer output: collect the
stripped text nodes while never descending into an element tagged `style`
or `script`.  Used to state claim C6; the script's decompose-then-collect
is proved equal to it below. -/
def visibleTextsSkipStyleScript : Html → List (List Char)
  | .text s =>
    let s2 := pyStrip s
    if s2.isEmpty then [] else [s2]
  | .elem n cs =>
    if n = "style" ∨ n = "script" then []
    else visibleTextsSkipStyleScriptList cs

/-- `visibleTextsSkipStyleScript` over a forest, in order. -/
def visibleTextsSkipStyleScriptList : List Html → List (List Char)
  | [] => []
  | h :: t => visibleTextsSkipStyleScript h ++ visibleTextsSkipStyleScriptList t

end

mutual

/-- Does an element tagged `style` or `script` occur anywhere in the tree? -/
def mentionsStyleScript : Html → Bool
  | .text _ => false
  | .elem n cs => n == "style" || n == "script" || mentionsStyleScriptList cs

/-- `mentionsStyleScript` over a forest. -/
def mentionsStyleScriptList : List Html → Bool
  | [] => false
  | h :: t => mentionsStyleScript h || mentionsStyleScriptList t

end

mutual

/-- All characters of all text nodes of the tree (the textual payload of
the raw HTML input, markup excluded). -/
def htmlChars : Html → List Char
  | .text s => s
  | .elem _ cs => htmlCharsList cs

/-- `htmlChars` over a forest. -/
def htmlCharsList : List Html → List Char
  | [] => []
  | h :: t => htmlChars h ++ htmlCharsList t

end

/-- Line 69, inner join: `" ".join(soup.stripped_strings)` after the
decompose loop — the flat visible text handed to the regex. -/
def reducedText (doc : List Html) : List Char :=
  joinWith [' '] (strippedStringsList (decomposeStyleScriptList doc))

/-- Lines 46–77: `process_and_check_malayalam_text(html_content,
min_malayalam_words)`.  The document is the parse tree of `html_content`;
the result is the space-joined Malayalam runs when their joined length
reaches the threshold, `None` otherwise. -/
def process_and_check_malayalam_text (doc : List Html) (minLen : Nat) :
    Option (List Char) :=
  let text_content := joinWith [' '] (findallMalayalam (reducedText doc))
  if minLen ≤ text_content.length then some text_content else none

example :
    process_and_check_malayalam_text [Html.text "xഅഇx".data] 2 = some "അഇ".data := by
  decide

example :
    process_and_check_malayalam_text [Html.text "hello world".data] 40 = none := by
  decide

/-! ## Token extraction (line 105)

`re.search(r'(\d{14}-\d{5})\.warc\.gz$', warc_file_path)`.  Because of the
`$` anchor the whole match has a fixed length of 28 characters and must end
at the end of the string, so the search succeeds exactly when the path ends
with 14 digits, a dash, 5 digits and `.warc.gz`, and the captured group is
then those 20 characters.  (Python's `$` would also match just before one
trailing newline; the paths of this program come from `line.strip()` and
never end in a newline, so that case is not modelled.)  Python's `\d` is
modelled as `Char.isDigit`; the Common-Crawl paths the script consumes are
ASCII. -/

/-- The capture-group search of line 105, returning the captured token. -/
def matchWarcToken (path : String) : Option String :=
  let cs := path.data
  if cs.length < 28 then none
  else
    let tail := cs.drop (cs.length - 28)
    if (tail.take 14).all Char.isDigit && tail[14]? == some '-'
        && ((tail.drop 15).take 5).all Char.isDigit
        && decide (tail.drop 20 = ".warc.gz".data)
    then some (String.mk (tail.take 20))
    else none

example :
    matchWarcToken "Extracted_files/CC-MAIN-20231101000000-00017.warc.gz"
      = some "20231101000000-00017" := by decide

example : matchWarcToken "Extracted_files/archive.warc.gz" = none := by decide

/-! ## File-system and log state -/

/-- The files of one directory: association of path to current contents. -/
abbrev FileMap := List (String × List Char)

/-- `open(path, 'a')` followed by `write(content)`: append to the existing
contents, or create the file. -/
def appendFile (fs : FileMap) (name : String) (content : List Char) : FileMap :=
  match fs with
  | [] => [(name, content)]
  | (n, v) :: rest =>
    if n = name then (n, v ++ content) :: rest
    else (n, v) :: appendFile rest name content

/-- Contents of a file, when present. -/
def getFile (fs : FileMap) (name : String) : Option (List Char) :=
  match fs with
  | [] => none
  | (n, v) :: rest => if n = name then some v else getFile rest name

/-- `os.path.join(a, b)` for the paths this script builds. -/
def pathJoin (a b : String) : String :=
  if b.data.head? = some '/' then b
  else if a = "" ∨ a.data.getLast? = some '/' then a ++ b
  else a ++ "/" ++ b

/-- `os.path.basename`: the component after the last `/`. -/
def baseName (s : String) : String :=
  String.mk ((s.data.reverse.takeWhile (fun c => c ≠ '/')).reverse)

/-- A row of the metrics CSV `extraction_info.csv`.  `header` is the
field-name row `File Name, File Path, Input File Size (MB), Output File
Size (KB), Time Taken (Minutes)`; a data row carries the two name/path
fields (the three numeric fields are float environment measurements, not
modelled). -/
inductive MetricsEntry where
  | header
  | row (fileName filePath : String)
deriving DecidableEq

/-- A row of the error CSV `error_log_info.csv`: the `File Path` header row
or a data row carrying the failed download's local path. -/
inductive ErrorEntry where
  | header
  | row (filePath : String)
deriving DecidableEq

/-- The one unhandled exception the conversion can raise: line 117 reads
the local variable `output_file_path`, which is unbound when no record
bound it (Python raises `UnboundLocalError`, a `NameError`). -/
inductive PyErr where
  | nameError
deriving DecidableEq

/-! ## WARC conversion (lines 80–126) -/

/-- One record yielded by `ArchiveIterator`: its `rec_type` and its payload
already decoded and parsed into a document. -/
structure WarcRecord where
  rec_type : String
  content : List Html

/-- Result of `convert_warc_to_text`: the extracted-text directory, the
metrics CSV, and the exception if one escaped. -/
structure ConvResult where
  files : FileMap
  metrics : List MetricsEntry
  err : Option PyErr
deriving DecidableEq

/-- The record loop of lines 92–111.  The `Option (String × String)`
component tracks the local variables `output_file_name, output_file_path`:
`none` while they are unbound. -/
def convLoop (warc_file_path output_dir : String) :
    List WarcRecord → FileMap → Option (String × String) →
      FileMap × Option (String × String)
  | [], fs, last => (fs, last)
  | r :: rs, fs, last =>
    if r.rec_type = "response" then
      match process_and_check_malayalam_text r.content 40 with
      | some content =>
        match matchWarcToken warc_file_path with
        | some tok =>
          let output_file_name := "extracted_text_" ++ tok ++ ".txt"
          let output_file_path := pathJoin output_dir output_file_name
          convLoop warc_file_path output_dir rs
            (appendFile fs output_file_path content)
            (some (output_file_name, output_file_path))
        | none => convLoop warc_file_path output_dir rs fs last
      | none => convLoop warc_file_path output_dir rs fs last
    else convLoop warc_file_path output_dir rs fs last

/-- Lines 80–126: run the record loop, then the epilogue.  Reading
`os.path.getsize(output_file_path)` on line 117 raises when the loop never
bound `output_file_path`; otherwise one metrics row is appended to the CSV
(line 124). -/
def convert_warc_to_text (warc_file_path output_dir : String)
    (records : List WarcRecord) (fs : FileMap) (metrics : List MetricsEntry) :
    ConvResult :=
  match convLoop warc_file_path output_dir records fs none with
  | (fs2, none) => ⟨fs2, metrics, some .nameError⟩
  | (fs2, some (name, p)) => ⟨fs2, metrics ++ [.row name p], none⟩

/-- The text blocks of an archive that the filter accepts, in record
order: the payloads of `response` records on which
`process_and_check_malayalam_text` (at its default threshold 40) returns a
string. -/
def acceptedTexts (records : List WarcRecord) : List (List Char) :=
  records.filterMap fun r =>
    if r.rec_type = "response" then process_and_check_malayalam_text r.content 40
    else none

/-! ## Download retry loop (lines 153–168)

`for retry in range(MAX_RETRIES): try wget; break / except: sleep(RETRY_DELAY)`.
One `subprocess.check_call` of `wget` is one transfer attempt of the
abstract fetch capability; `outcome k` tells whether attempt `k` succeeds.
The trace of attempts and sleeps is recorded as a list of events. -/

/-- An observable step of the retry loop. -/
inductive RetryEvent where
  | attempt (ok : Bool)
  | sleep (seconds : Nat)
deriving DecidableEq

/-- The loop body, `n` iterations left, next attempt index `k`.  On failure
the code sleeps `delay` and retries; falling off the range (the `for`'s
`else`) reports failure. -/
def retryLoopAux (outcome : Nat → Bool) (delay : Nat) :
    Nat → Nat → List RetryEvent × Bool
  | 0, _ => ([], false)
  | n + 1, k =>
    if outcome k then ([.attempt true], true)
    else
      let rest := retryLoopAux outcome delay n (k + 1)
      (.attempt false :: .sleep delay :: rest.1, rest.2)

/-- The whole retry loop of lines 153–160: the event trace and whether the
download succeeded. -/
def retryLoop (outcome : Nat → Bool) (maxRetries delay : Nat) :
    List RetryEvent × Bool :=
  retryLoopAux outcome delay maxRetries 0

/-- Number of transfer attempts in a trace. -/
def countAttempts (evs : List RetryEvent) : Nat :=
  evs.countP fun e => match e with | .attempt _ => true | .sleep _ => false

/-! ## The driver (lines 129–177) -/

/-- Run-level state: extracted-text files, metrics CSV, error CSV. -/
structure RunState where
  textFiles : FileMap
  metricsCsv : List MetricsEntry
  errorCsv : List ErrorEntry
deriving DecidableEq

/-- Outcome of processing one source entry. -/
structure EntryResult where
  state : RunState
  events : List RetryEvent
  err : Option PyErr
deriving DecidableEq

/-- Line 149, `url = line.strip()`: Python's `str.strip()` on a line of the
source list. -/
def stripLine (s : String) : String := String.mk (pyStrip s.data)

/-- Line 150: the local download destination for a source entry. -/
def localFilename (url : String) : String :=
  pathJoin OUTPUT_DIRECTORY (baseName url)

/-- The per-entry body of `main`'s loop (lines 150–174): retry the
download; on success convert the archive (then `os.remove` it — the
download directory is not part of the modelled state); on exhausted retries
append one error row and move on. -/
def processUrl (outcome : Nat → Bool) (records : List WarcRecord)
    (maxRetries delay : Nat) (st : RunState) (url : String) : EntryResult :=
  let local_filename := localFilename url
  let r := retryLoop outcome maxRetries delay
  if r.2 then
    let conv := convert_warc_to_text local_filename EXTRACTED_TEXT_DIRECTORY
      records st.textFiles st.metricsCsv
    ⟨{ st with textFiles := conv.files, metricsCsv := conv.metrics }, r.1, conv.err⟩
  else
    ⟨{ st with errorCsv := st.errorCsv ++ [.row local_filename] }, r.1, none⟩

/-- The loop over the lines of `warc.paths` (lines 148–174).  `outcome url
k` is the result of attempt `k` for `url`; `warcRecords url` is the record
sequence of the archive downloaded from `url`.  An exception from the
conversion propagates: the run stops, later entries untouched. -/
def runEntries (outcome : String → Nat → Bool)
    (warcRecords : String → List WarcRecord) (maxRetries delay : Nat) :
    List String → RunState → RunState × Option PyErr
  | [], st => (st, none)
  | line :: rest, st =>
    let url := (stripLine line)
    let res := processUrl (outcome url) (warcRecords url) maxRetries delay st url
    match res.err with
    | some e => (res.state, some e)
    | none => runEntries outcome warcRecords maxRetries delay rest res.state

/-- Lines 133–144: `open(..., 'w')` truncates both CSV logs and
`writeheader()` writes their single header row. -/
def initLogs (st : RunState) : RunState :=
  { st with metricsCsv := [.header], errorCsv := [.header] }

/-- `main` (lines 129–177), parametric in the two constants `MAX_RETRIES`
and `RETRY_DELAY`: initialize the logs, then process every line of the
source list. -/
def mainRun (outcome : String → Nat → Bool)
    (warcRecords : String → List WarcRecord) (maxRetries delay : Nat)
    (lines : List String) (st : RunState) : RunState × Option PyErr :=
  runEntries outcome warcRecords maxRetries delay lines (initLogs st)

/-- `main` as shipped, with the script's constants. -/
def mainScript (outcome : String → Nat → Bool)
    (warcRecords : String → List WarcRecord) (lines : List String)
    (st : RunState) : RunState × Option PyErr :=
  mainRun outcome warcRecords MAX_RETRIES RETRY_DELAY lines st

/-! ## Lemmas: the run scan computes the maximal runs -/

theorem modifyHead_nil_append (l : List (List Char)) :
    l.modifyHead (fun x => ([] : List Char) ++ x) = l := by
  cases l <;> simp

theorem malRunsAux_eq_splitOnP (cs : List Char) : ∀ acc : List Char,
    malRunsAux cs acc =
      ((cs.splitOnP (fun c => !isMalayalamChar c)).modifyHead
          (acc.reverse ++ ·)).filter (fun r => !r.isEmpty) := by
  induction cs with
  | nil =>
    intro acc
    cases acc with
    | nil => rfl
    | cons a t =>
      show [(a :: t).reverse] = _
      rw [List.splitOnP_nil, List.modifyHead_cons]
      simp
  | cons c cs ih =>
    intro acc
    by_cases hc : isMalayalamChar c = true
    · have hpc : (!isMalayalamChar c) = false := by rw [hc]; rfl
      rw [malRunsAux, if_pos hc, ih (c :: acc), List.splitOnP_cons, hpc,
        if_neg Bool.false_ne_true, List.modifyHead_modifyHead]
      congr 2
      funext x
      simp [Function.comp, List.append_assoc]
    · have hpc : (!isMalayalamChar c) = true := by
        cases h2 : isMalayalamChar c with
        | false => rfl
        | true => exact absurd h2 hc
      rw [malRunsAux, if_neg hc, List.splitOnP_cons, hpc, if_pos rfl,
        List.modifyHead_cons, List.append_nil, List.filter_cons]
      cases acc with
      | nil =>
        rw [if_pos (show ([] : List Char).isEmpty = true from rfl),
          if_neg (by simp), ih [], List.reverse_nil, modifyHead_nil_append]
      | cons a t =>
        rw [if_neg (by simp), if_pos (by simp), ih [], List.reverse_nil,
          modifyHead_nil_append]

/-- The executable embedding of `re.findall(r'[ഀ-ൿ]+', s)` computes
exactly the maximal target-script runs, in order of appearance. -/
theorem findallMalayalam_eq_maximalRuns (cs : List Char) :
    findallMalayalam cs = maximalMalayalamRuns cs := by
  rw [findallMalayalam, maximalMalayalamRuns, malRunsAux_eq_splitOnP cs []]
  cases h : cs.splitOnP (fun c => !isMalayalamChar c) <;>
    simp [List.modifyHead]

/-! ## Lemmas: `" ".join` -/

theorem joinWith_length (sep : List Char) :
    ∀ rs : List (List Char), rs ≠ [] →
      (joinWith sep rs).length =
        (rs.map List.length).sum + sep.length * (rs.length - 1)
  | [], h => absurd rfl h
  | [x], _ => by simp [joinWith]
  | x :: y :: xs, _ => by
    have ih := joinWith_length sep (y :: xs) (by simp)
    have h1 : (y :: xs).length - 1 = xs.length := by simp
    have h2 : (x :: y :: xs).length - 1 = xs.length + 1 := by simp
    rw [h1] at ih
    simp only [joinWith, List.length_append, ih, List.map_cons, List.sum_cons, h2]
    ring

theorem mem_joinWith (sep : List Char) :
    ∀ rs : List (List Char), ∀ c ∈ joinWith sep rs,
      c ∈ sep ∨ ∃ r ∈ rs, c ∈ r
  | [], c, hc => by simp [joinWith] at hc
  | [x], c, hc => by
    right; exact ⟨x, by simp, by simpa [joinWith] using hc⟩
  | x :: y :: xs, c, hc => by
    simp only [joinWith, List.mem_append] at hc
    rcases hc with (hc | hc) | hc
    · exact Or.inr ⟨x, by simp, hc⟩
    · exact Or.inl hc
    · rcases mem_joinWith sep (y :: xs) c hc with h | ⟨r, hr, hcr⟩
      · exact Or.inl h
      · exact Or.inr ⟨r, by simpa using Or.inr (by simpa using hr), hcr⟩

/-- If the text has no target-script character, the scan yields no runs. -/
theorem malRunsAux_nil_of_no_mal (cs : List Char)
    (h : ∀ c ∈ cs, isMalayalamChar c = false) : malRunsAux cs [] = [] := by
  induction cs with
  | nil => rfl
  | cons c cs ih =>
    rw [malRunsAux, if_neg (by simp [h c (List.mem_cons_self c cs)]),
      if_pos (show ([] : List Char).isEmpty = true from rfl)]
    exact ih fun x hx => h x (List.mem_cons_of_mem c hx)

/-! ## Lemmas: decompose-then-collect equals collect-skipping -/

mutual

theorem vis_eq_strip_decompose : ∀ t : Html,
    (match decomposeStyleScript t with
      | none => ([] : List (List Char))
      | some t2 => strippedStrings t2) = visibleTextsSkipStyleScript t
  | .text s => rfl
  | .elem n cs => by
    by_cases h : n = "style" ∨ n = "script"
    · simp only [decomposeStyleScript, if_pos h, visibleTextsSkipStyleScript,
        if_pos h]
    · simp only [decomposeStyleScript, if_neg h, visibleTextsSkipStyleScript,
        if_neg h, strippedStrings]
      exact vis_eq_strip_decomposeList cs

theorem vis_eq_strip_decomposeList : ∀ l : List Html,
    strippedStringsList (decomposeStyleScriptList l) =
      visibleTextsSkipStyleScriptList l
  | [] => rfl
  | h :: t => by
    have he := vis_eq_strip_decompose h
    rw [decomposeStyleScriptList, visibleTextsSkipStyleScriptList]
    cases hd : decomposeStyleScript h with
    | none =>
      rw [hd] at he
      simp only at he
      rw [← he, List.nil_append]
      exact vis_eq_strip_decomposeList t
    | some h2 =>
      rw [hd] at he
      simp only at he
      rw [strippedStringsList, he]
      exact congrArg _ (vis_eq_strip_decomposeList t)

end

mutual

theorem decompose_no_styleScript : ∀ t t2 : Html,
    decomposeStyleScript t = some t2 → mentionsStyleScript t2 = false
  | .text s, t2 => by
    intro h
    simp only [decomposeStyleScript, Option.some.injEq] at h
    rw [← h]
    rfl
  | .elem n cs, t2 => by
    intro h
    by_cases hn : n = "style" ∨ n = "script"
    · simp only [decomposeStyleScript, if_pos hn] at h
      exact Option.noConfusion h
    · simp only [decomposeStyleScript, if_neg hn, Option.some.injEq] at h
      rw [← h, mentionsStyleScript]
      have h1 : (n == "style") = false := by
        simp only [beq_eq_false_iff_ne, ne_eq]
        exact fun he => hn (Or.inl he)
      have h2 : (n == "script") = false := by
        simp only [beq_eq_false_iff_ne, ne_eq]
        exact fun he => hn (Or.inr he)
      rw [h1, h2, decomposeList_no_styleScript cs]
      rfl

theorem decomposeList_no_styleScript : ∀ l : List Html,
    mentionsStyleScriptList (decomposeStyleScriptList l) = false
  | [] => rfl
  | h :: t => by
    rw [decomposeStyleScriptList]
    cases hd : decomposeStyleScript h with
    | none => exact decomposeList_no_styleScript t
    | some h2 =>
      rw [mentionsStyleScriptList, decompose_no_styleScript h h2 hd,
        decomposeList_no_styleScript t]
      rfl

end

/-! ## Lemmas: provenance of output characters -/

theorem mem_of_mem_pyStrip (s : List Char) (c : Char) (h : c ∈ pyStrip s) :
    c ∈ s := by
  unfold pyStrip at h
  rw [List.mem_reverse] at h
  have h2 : c ∈ (s.dropWhile Char.isWhitespace).reverse :=
    (List.dropWhile_sublist _).subset h
  rw [List.mem_reverse] at h2
  exact (List.dropWhile_sublist _).subset h2

mutual

theorem mem_htmlChars_of_mem_vis : ∀ t : Html,
    ∀ s ∈ visibleTextsSkipStyleScript t, ∀ c ∈ s, c ∈ htmlChars t
  | .text s0 => by
    intro s hs c hc
    rw [visibleTextsSkipStyleScript] at hs
    by_cases he : (pyStrip s0).isEmpty
    · rw [if_pos he] at hs
      exact absurd hs (List.not_mem_nil s)
    · rw [if_neg he, List.mem_singleton] at hs
      rw [hs] at hc
      exact mem_of_mem_pyStrip s0 c hc
  | .elem n cs => by
    intro s hs c hc
    rw [visibleTextsSkipStyleScript] at hs
    by_cases hn : n = "style" ∨ n = "script"
    · rw [if_pos hn] at hs
      exact absurd hs (List.not_mem_nil s)
    · rw [if_neg hn] at hs
      exact mem_htmlChars_of_mem_visList cs s hs c hc

theorem mem_htmlChars_of_mem_visList : ∀ l : List Html,
    ∀ s ∈ visibleTextsSkipStyleScriptList l, ∀ c ∈ s, c ∈ htmlCharsList l
  | [] => by intro s hs; exact absurd hs (List.not_mem_nil s)
  | h :: t => by
    intro s hs c hc
    rw [visibleTextsSkipStyleScriptList, List.mem_append] at hs
    rw [htmlCharsList, List.mem_append]
    rcases hs with hs | hs
    · exact Or.inl (mem_htmlChars_of_mem_vis h s hs c hc)
    · exact Or.inr (mem_htmlChars_of_mem_visList t s hs c hc)

end

/-- Every character of the flat visible text handed to the regex is either
one of the joining spaces or a character of the raw input's text nodes. -/
theorem reducedText_chars (doc : List Html) (c : Char) (h : c ∈ reducedText doc) :
    c = ' ' ∨ c ∈ htmlCharsList doc := by
  unfold reducedText at h
  rcases mem_joinWith _ _ c h with hsep | ⟨r, hr, hcr⟩
  · left
    simpa using hsep
  · right
    rw [vis_eq_strip_decomposeList doc] at hr
    exact mem_htmlChars_of_mem_visList doc r hr c hcr

/-! ## Lemmas: the conversion loop -/

/-- When the scan accepts nothing, the record loop writes nothing and never
binds `output_file_path`. -/
theorem convLoop_no_accept (path dir : String) :
    ∀ (records : List WarcRecord) (fs : FileMap) (last : Option (String × String)),
      (∀ r ∈ records, r.rec_type = "response" →
        process_and_check_malayalam_text r.content 40 = none) →
      convLoop path dir records fs last = (fs, last)
  | [], fs, last, _ => rfl
  | r :: rs, fs, last, h => by
    rw [convLoop]
    by_cases ht : r.rec_type = "response"
    · rw [if_pos ht, h r (List.mem_cons_self r rs) ht]
      exact convLoop_no_accept path dir rs fs last
        fun x hx => h x (List.mem_cons_of_mem r hx)
    · rw [if_neg ht]
      exact convLoop_no_accept path dir rs fs last
        fun x hx => h x (List.mem_cons_of_mem r hx)

/-- When the path has no token, the record loop writes nothing and never
binds `output_file_path`, whatever the scan accepts. -/
theorem convLoop_no_token (path dir : String)
    (h : matchWarcToken path = none) :
    ∀ (records : List WarcRecord) (fs : FileMap) (last : Option (String × String)),
      convLoop path dir records fs last = (fs, last)
  | [], fs, last => rfl
  | r :: rs, fs, last => by
    rw [convLoop]
    by_cases ht : r.rec_type = "response"
    · rw [if_pos ht]
      cases hp : process_and_check_malayalam_text r.content 40 with
      | none => exact convLoop_no_token path dir h rs fs last
      | some content =>
        rw [h]
        exact convLoop_no_token path dir h rs fs last
    · rw [if_neg ht]
      exact convLoop_no_token path dir h rs fs last

/-- When the path carries token `tok`, every accepted text is appended, in
order, to the one derived output file. -/
theorem convLoop_files_token (path dir tok : String)
    (h : matchWarcToken path = some tok) :
    ∀ (records : List WarcRecord) (fs : FileMap) (last : Option (String × String)),
      (convLoop path dir records fs last).1 =
        (acceptedTexts records).foldl
          (fun a c =>
            appendFile a (pathJoin dir ("extracted_text_" ++ tok ++ ".txt")) c) fs
  | [], fs, last => rfl
  | r :: rs, fs, last => by
    rw [convLoop]
    by_cases ht : r.rec_type = "response"
    · rw [if_pos ht]
      cases hp : process_and_check_malayalam_text r.content 40 with
      | none =>
        rw [convLoop_files_token path dir tok h rs fs last]
        simp [acceptedTexts, List.filterMap_cons, ht, hp]
      | some content =>
        rw [h, convLoop_files_token path dir tok h rs _ _]
        simp [acceptedTexts, List.filterMap_cons, ht, hp]
    · rw [if_neg ht, convLoop_files_token path dir tok h rs fs last]
      simp [acceptedTexts, List.filterMap_cons, ht]

/-! ## Lemmas: append-mode file writes -/

theorem getFile_appendFile (fs : FileMap) (n : String) (c : List Char) :
    getFile (appendFile fs n c) n = some ((getFile fs n).getD [] ++ c) := by
  induction fs with
  | nil => simp [appendFile, getFile]
  | cons p rest ih =>
    obtain ⟨m, v⟩ := p
    by_cases hm : m = n
    · rw [appendFile, if_pos hm, getFile, if_pos hm, getFile, if_pos hm]
      rfl
    · rw [appendFile, if_neg hm, getFile, if_neg hm, getFile, if_neg hm, ih]

theorem getFile_foldl_appendFile (n : String) :
    ∀ (cs : List (List Char)) (fs : FileMap), cs ≠ [] →
      getFile (cs.foldl (fun a c => appendFile a n c) fs) n =
        some ((getFile fs n).getD [] ++ cs.flatten)
  | [], _, h => absurd rfl h
  | [c], fs, _ => by
    simp only [List.foldl_cons, List.foldl_nil, getFile_appendFile,
      List.flatten_cons, List.flatten_nil, List.append_nil]
  | c :: c2 :: cs, fs, _ => by
    rw [List.foldl_cons,
      getFile_foldl_appendFile n (c2 :: cs) (appendFile fs n c) (by simp),
      getFile_appendFile]
    simp [List.append_assoc]

/-! ## Lemmas: the retry loop -/

theorem retryLoopAux_attempts_le (outcome : Nat → Bool) (delay : Nat) :
    ∀ n k, countAttempts (retryLoopAux outcome delay n k).1 ≤ n
  | 0, _ => Nat.le_refl 0
  | n + 1, k => by
    rw [retryLoopAux]
    by_cases h : outcome k = true
    · rw [if_pos h]
      simp [countAttempts]
    · rw [if_neg h]
      simp only [countAttempts, List.countP_cons]
      have := retryLoopAux_attempts_le outcome delay n (k + 1)
      simp only [countAttempts] at this
      simp
      omega

theorem retryLoopAux_all_fail (outcome : Nat → Bool) (delay : Nat) :
    ∀ n k, (∀ i, k ≤ i → i < k + n → outcome i = false) →
      retryLoopAux outcome delay n k =
        ((List.replicate n [RetryEvent.attempt false,
            RetryEvent.sleep delay]).flatten, false)
  | 0, k, _ => rfl
  | n + 1, k, h => by
    have hk : outcome k = false := h k (Nat.le_refl k) (by omega)
    rw [retryLoopAux, if_neg (by rw [hk]; exact Bool.false_ne_true),
      retryLoopAux_all_fail outcome delay n (k + 1)
        (fun i h1 h2 => h i (by omega) (by omega))]
    simp [List.replicate_succ]

/-- All attempts failing: the loop's trace is `attempt, sleep, attempt,
sleep, …` (`maxRetries` times each) and the download is reported failed. -/
theorem retryLoop_all_fail (outcome : Nat → Bool) (maxRetries delay : Nat)
    (h : ∀ i < maxRetries, outcome i = false) :
    retryLoop outcome maxRetries delay =
      ((List.replicate maxRetries [RetryEvent.attempt false,
          RetryEvent.sleep delay]).flatten, false) :=
  retryLoopAux_all_fail outcome delay maxRetries 0
    fun i _ h2 => h i (by omega)

theorem retryLoop_first_success (outcome : Nat → Bool) (maxRetries delay : Nat)
    (h : outcome 0 = true) (hN : 1 ≤ maxRetries) :
    retryLoop outcome maxRetries delay = ([.attempt true], true) := by
  cases maxRetries with
  | zero => omega
  | succ n => rw [retryLoop, retryLoopAux, if_pos h]

/-! ## Lemmas: the conversion epilogue and the driver -/

theorem convert_files_eq (path dir : String) (records : List WarcRecord)
    (fs : FileMap) (metrics : List MetricsEntry) :
    (convert_warc_to_text path dir records fs metrics).files =
      (convLoop path dir records fs none).1 := by
  unfold convert_warc_to_text
  cases h : convLoop path dir records fs none with
  | mk fs2 last =>
    cases last with
    | none => rfl
    | some np =>
      obtain ⟨a, b⟩ := np
      rfl

theorem convert_metrics_delta (path dir : String) (records : List WarcRecord)
    (fs : FileMap) (metrics : List MetricsEntry) :
    ∃ dm, (convert_warc_to_text path dir records fs metrics).metrics =
        metrics ++ dm ∧ ∀ e ∈ dm, e ≠ MetricsEntry.header := by
  unfold convert_warc_to_text
  cases h : convLoop path dir records fs none with
  | mk fs2 last =>
    cases last with
    | none => exact ⟨[], by simp, by simp⟩
    | some np =>
      obtain ⟨a, b⟩ := np
      exact ⟨[MetricsEntry.row a b], by simp, by simp⟩

theorem convert_no_token (path dir : String) (records : List WarcRecord)
    (fs : FileMap) (metrics : List MetricsEntry)
    (h : matchWarcToken path = none) :
    convert_warc_to_text path dir records fs metrics =
      ⟨fs, metrics, some PyErr.nameError⟩ := by
  unfold convert_warc_to_text
  rw [convLoop_no_token path dir h records fs none]

/-- A successful token search decomposes the path: the captured token sits
immediately before the `.warc.gz` suffix. -/
theorem matchWarcToken_decomp (path tok : String)
    (h : matchWarcToken path = some tok) :
    ∃ pre, path.data = pre ++ tok.data ++ ".warc.gz".data := by
  simp only [matchWarcToken] at h
  by_cases h1 : path.data.length < 28
  · rw [if_pos h1] at h
    exact Option.noConfusion h
  · rw [if_neg h1] at h
    by_cases h2 : (((path.data.drop (path.data.length - 28)).take 14).all
          Char.isDigit
        && (path.data.drop (path.data.length - 28))[14]? == some '-'
        && (((path.data.drop (path.data.length - 28)).drop 15).take 5).all
          Char.isDigit
        && decide ((path.data.drop (path.data.length - 28)).drop 20 =
          ".warc.gz".data)) = true
    · rw [if_pos h2] at h
      have htok : tok.data = (path.data.drop (path.data.length - 28)).take 20 := by
        have := Option.some.inj h
        rw [← this]
      have hsuf : (path.data.drop (path.data.length - 28)).drop 20 =
          ".warc.gz".data := by
        simp only [Bool.and_eq_true, decide_eq_true_eq] at h2
        exact h2.2
      refine ⟨path.data.take (path.data.length - 28), ?_⟩
      rw [htok, ← hsuf, List.append_assoc, List.take_append_drop,
        List.take_append_drop]
    · rw [if_neg h2] at h
      exact Option.noConfusion h

theorem processUrl_log_delta (outcome : Nat → Bool)
    (records : List WarcRecord) (N D : Nat) (st : RunState) (url : String) :
    ∃ dm de,
      (processUrl outcome records N D st url).state.metricsCsv =
        st.metricsCsv ++ dm ∧
      (processUrl outcome records N D st url).state.errorCsv =
        st.errorCsv ++ de ∧
      (∀ e ∈ dm, e ≠ MetricsEntry.header) ∧
      (∀ e ∈ de, e ≠ ErrorEntry.header) := by
  simp only [processUrl]
  by_cases hr : (retryLoop outcome N D).2 = true
  · rw [if_pos hr]
    obtain ⟨dm, h1, h2⟩ := convert_metrics_delta (localFilename url)
      EXTRACTED_TEXT_DIRECTORY records st.textFiles st.metricsCsv
    exact ⟨dm, [], h1, by simp, h2, by simp⟩
  · rw [if_neg hr]
    exact ⟨[], [ErrorEntry.row (localFilename url)], by simp, rfl, by simp,
      by simp⟩

theorem runEntries_log_delta (O : String → Nat → Bool)
    (W : String → List WarcRecord) (N D : Nat) :
    ∀ (lines : List String) (st : RunState),
      ∃ dm de,
        (runEntries O W N D lines st).1.metricsCsv = st.metricsCsv ++ dm ∧
        (runEntries O W N D lines st).1.errorCsv = st.errorCsv ++ de ∧
        (∀ e ∈ dm, e ≠ MetricsEntry.header) ∧
        (∀ e ∈ de, e ≠ ErrorEntry.header)
  | [], st => ⟨[], [], by simp [runEntries], by simp [runEntries], by simp,
      by simp⟩
  | line :: rest, st => by
    obtain ⟨dm1, de1, h1, h2, h3, h4⟩ :=
      processUrl_log_delta (O (stripLine line)) (W (stripLine line)) N D st (stripLine line)
    simp only [runEntries]
    cases he : (processUrl (O (stripLine line)) (W (stripLine line)) N D st (stripLine line)).err with
    | some e => exact ⟨dm1, de1, h1, h2, h3, h4⟩
    | none =>
      obtain ⟨dm2, de2, g1, g2, g3, g4⟩ := runEntries_log_delta O W N D rest
        (processUrl (O (stripLine line)) (W (stripLine line)) N D st (stripLine line)).state
      refine ⟨dm1 ++ dm2, de1 ++ de2, ?_, ?_, ?_, ?_⟩
      · rw [g1, h1, List.append_assoc]
      · rw [g2, h2, List.append_assoc]
      · intro e hme
        rcases List.mem_append.1 hme with hm | hm
        · exact h3 e hm
        · exact g3 e hm
      · intro e hme
        rcases List.mem_append.1 hme with hm | hm
        · exact h4 e hm
        · exact g4 e hm

/-! ## The claims -/

/-- **C1.** For every archive whose scan accepts zero text blocks,
`convert_warc_to_text` appends no metrics row and creates no output text
file.  (The record loop never binds `output_file_path`, so the metrics
epilogue raises a `NameError` instead of writing a row — the metrics CSV
receives a row only when at least one text was appended.) -/
theorem convert_zero_accepted_no_metrics_no_file (path dir : String)
    (records : List WarcRecord) (fs : FileMap) (metrics : List MetricsEntry)
    (h : ∀ r ∈ records, r.rec_type = "response" →
      process_and_check_malayalam_text r.content 40 = none) :
    (convert_warc_to_text path dir records fs metrics).files = fs ∧
    (convert_warc_to_text path dir records fs metrics).metrics = metrics ∧
    (convert_warc_to_text path dir records fs metrics).err =
      some PyErr.nameError := by
  unfold convert_warc_to_text
  rw [convLoop_no_accept path dir records fs none h]
  exact ⟨rfl, rfl, rfl⟩

/-- Witness for C1: the spec's end-to-end scenario B — one response record
holding `<html><body>hello world</body></html>`. -/
theorem convert_zero_accepted_no_metrics_no_file_witness :
    (∀ r ∈ [WarcRecord.mk "response" [Html.elem "html" [Html.elem "body"
        [Html.text "hello world".data]]]],
      r.rec_type = "response" →
        process_and_check_malayalam_text r.content 40 = none) ∧
    ((convert_warc_to_text "Extracted_files/CC-MAIN-20231101000000-00017.warc.gz"
        EXTRACTED_TEXT_DIRECTORY
        [WarcRecord.mk "response" [Html.elem "html" [Html.elem "body"
          [Html.text "hello world".data]]]] [] []).files = [] ∧
      (convert_warc_to_text "Extracted_files/CC-MAIN-20231101000000-00017.warc.gz"
        EXTRACTED_TEXT_DIRECTORY
        [WarcRecord.mk "response" [Html.elem "html" [Html.elem "body"
          [Html.text "hello world".data]]]] [] []).metrics = [] ∧
      (convert_warc_to_text "Extracted_files/CC-MAIN-20231101000000-00017.warc.gz"
        EXTRACTED_TEXT_DIRECTORY
        [WarcRecord.mk "response" [Html.elem "html" [Html.elem "body"
          [Html.text "hello world".data]]]] [] []).err =
        some PyErr.nameError) :=
  ⟨by decide, convert_zero_accepted_no_metrics_no_file _ _ _ _ _ (by decide)⟩

/-- **C2.** The retry loop performs at most `maxRetries` transfer attempts,
and when every attempt fails its trace is `attempt, sleep delay` repeated
`maxRetries` times (a `retryDelaySeconds` wait between each pair of
attempts) and the per-entry step reports the failure by appending an error
row carrying the destination path. -/
theorem retry_bounded_attempts_and_failure_reported (outcome : Nat → Bool)
    (N D : Nat) (records : List WarcRecord) (st : RunState) (url : String) :
    countAttempts (retryLoop outcome N D).1 ≤ N ∧
    ((∀ k < N, outcome k = false) →
      retryLoop outcome N D =
        ((List.replicate N [RetryEvent.attempt false,
            RetryEvent.sleep D]).flatten, false) ∧
      (processUrl outcome records N D st url).state.errorCsv =
        st.errorCsv ++ [ErrorEntry.row (localFilename url)]) := by
  refine ⟨retryLoopAux_attempts_le outcome D N 0,
    fun h => ⟨retryLoop_all_fail outcome N D h, ?_⟩⟩
  simp only [processUrl, retryLoop_all_fail outcome N D h]
  simp

/-- Witness for C2 at `maxRetries = 2`, every attempt failing. -/
theorem retry_bounded_attempts_and_failure_reported_witness :
    countAttempts (retryLoop (fun _ => false) 2 10).1 ≤ 2 ∧
    (retryLoop (fun _ => false) 2 10 =
        ((List.replicate 2 [RetryEvent.attempt false,
            RetryEvent.sleep 10]).flatten, false) ∧
      (processUrl (fun _ => false) [] 2 10 ⟨[], [], []⟩ "u").state.errorCsv =
        ([] : List ErrorEntry) ++ [ErrorEntry.row (localFilename "u")]) := by
  have h := retry_bounded_attempts_and_failure_reported (fun _ => false) 2 10
    [] ⟨[], [], []⟩ "u"
  exact ⟨h.1, h.2 (by decide)⟩

/-- **C3, counterexample.** The claim quantifies over every `minLength`,
but at `minLength = 0` an input with zero target-script characters makes
the filter return the empty string (`len("") >= 0`), not nothing. -/
theorem scriptFilter_zero_script_counterexample :
    process_and_check_malayalam_text [Html.text "hello".data] 0 = some [] := by
  decide

/-- **C3 (amended).** For every HTML input containing zero characters of
the target script range and every `minLength ≥ 1`,
`process_and_check_malayalam_text` returns nothing. -/
theorem scriptFilter_zero_script_returns_none (doc : List Html) (minLen : Nat)
    (h : ∀ c ∈ htmlCharsList doc, isMalayalamChar c = false)
    (hmin : 1 ≤ minLen) :
    process_and_check_malayalam_text doc minLen = none := by
  have hred : ∀ c ∈ reducedText doc, isMalayalamChar c = false := by
    intro c hc
    rcases reducedText_chars doc c hc with rfl | hc2
    · rfl
    · exact h c hc2
  simp only [process_and_check_malayalam_text, findallMalayalam,
    malRunsAux_nil_of_no_mal _ hred, joinWith, List.length_nil]
  rw [if_neg (by omega)]

/-- Witness for C3's amended claim: `hello` at the default threshold. -/
theorem scriptFilter_zero_script_returns_none_witness :
    (∀ c ∈ htmlCharsList [Html.text "hello".data],
      isMalayalamChar c = false) ∧ 1 ≤ 40 ∧
    process_and_check_malayalam_text [Html.text "hello".data] 40 = none :=
  ⟨by decide, by decide,
    scriptFilter_zero_script_returns_none _ _ (by decide) (by decide)⟩

/-- **C4.** For every input, the filter returns exactly the maximal runs of
target-script characters of its reduced text, joined by single spaces, in
order of appearance, when that joined string reaches `minLength`; otherwise
it returns nothing. -/
theorem scriptFilter_returns_joined_maximal_runs (doc : List Html)
    (minLen : Nat) :
    process_and_check_malayalam_text doc minLen =
      if minLen ≤ (joinWith [' ']
          (maximalMalayalamRuns (reducedText doc))).length
      then some (joinWith [' '] (maximalMalayalamRuns (reducedText doc)))
      else none := by
  simp only [process_and_check_malayalam_text, findallMalayalam_eq_maximalRuns]

/-- **C5.** When the archive path carries a token, every accepted text
block is appended — never overwritten — to the file
`extracted_text_<token>.txt`, and the token is the 14-digit, dash, 5-digit
substring immediately preceding the path's `.warc.gz` suffix. -/
theorem accepted_text_appended_to_token_file (path dir tok : String)
    (records : List WarcRecord) (fs : FileMap) (metrics : List MetricsEntry)
    (h : matchWarcToken path = some tok)
    (hacc : acceptedTexts records ≠ []) :
    (∃ pre, path.data = pre ++ tok.data ++ ".warc.gz".data) ∧
    (convert_warc_to_text path dir records fs metrics).files =
      (acceptedTexts records).foldl
        (fun a c => appendFile a
          (pathJoin dir ("extracted_text_" ++ tok ++ ".txt")) c) fs ∧
    getFile (convert_warc_to_text path dir records fs metrics).files
        (pathJoin dir ("extracted_text_" ++ tok ++ ".txt")) =
      some ((getFile fs
          (pathJoin dir ("extracted_text_" ++ tok ++ ".txt"))).getD []
        ++ (acceptedTexts records).flatten) := by
  have hfiles : (convert_warc_to_text path dir records fs metrics).files =
      (acceptedTexts records).foldl
        (fun a c => appendFile a
          (pathJoin dir ("extracted_text_" ++ tok ++ ".txt")) c) fs := by
    rw [convert_files_eq, convLoop_files_token path dir tok h records fs none]
  refine ⟨matchWarcToken_decomp path tok h, hfiles, ?_⟩
  rw [hfiles]
  exact getFile_foldl_appendFile _ _ _ hacc

/-- Witness for C5: one accepted 40-character block, a Common-Crawl-style
path. -/
theorem accepted_text_appended_to_token_file_witness :
    matchWarcToken "Extracted_files/CC-MAIN-20231101000000-00017.warc.gz" =
      some "20231101000000-00017" ∧
    acceptedTexts [WarcRecord.mk "response"
      [Html.text (List.replicate 40 'അ')]] ≠ [] ∧
    ((∃ pre, "Extracted_files/CC-MAIN-20231101000000-00017.warc.gz".data =
        pre ++ "20231101000000-00017".data ++ ".warc.gz".data) ∧
      (convert_warc_to_text
          "Extracted_files/CC-MAIN-20231101000000-00017.warc.gz"
          EXTRACTED_TEXT_DIRECTORY
          [WarcRecord.mk "response" [Html.text (List.replicate 40 'അ')]]
          [] []).files =
        (acceptedTexts [WarcRecord.mk "response"
            [Html.text (List.replicate 40 'അ')]]).foldl
          (fun a c => appendFile a
            (pathJoin EXTRACTED_TEXT_DIRECTORY
              ("extracted_text_" ++ "20231101000000-00017" ++ ".txt")) c) [] ∧
      getFile (convert_warc_to_text
            "Extracted_files/CC-MAIN-20231101000000-00017.warc.gz"
            EXTRACTED_TEXT_DIRECTORY
            [WarcRecord.mk "response" [Html.text (List.replicate 40 'അ')]]
            [] []).files
          (pathJoin EXTRACTED_TEXT_DIRECTORY
            ("extracted_text_" ++ "20231101000000-00017" ++ ".txt")) =
        some ((getFile []
            (pathJoin EXTRACTED_TEXT_DIRECTORY
              ("extracted_text_" ++ "20231101000000-00017" ++ ".txt"))).getD []
          ++ (acceptedTexts [WarcRecord.mk "response"
              [Html.text (List.replicate 40 'അ')]]).flatten)) :=
  ⟨by decide, by decide,
    accepted_text_appended_to_token_file _ _ _ _ _ _ (by decide) (by decide)⟩

/-- **C6.** After the decompose loop no element tagged `style` or `script`
remains, and the text collected for filtering is exactly the text gathered
while skipping `style`/`script` subtrees entirely — so no text originating
from such elements ever reaches the filter stage. -/
theorem reducer_excludes_style_script_text (doc : List Html) :
    mentionsStyleScriptList (decomposeStyleScriptList doc) = false ∧
    strippedStringsList (decomposeStyleScriptList doc) =
      visibleTextsSkipStyleScriptList doc :=
  ⟨decomposeList_no_styleScript doc, vis_eq_strip_decomposeList doc⟩

/-- **C7.** A source entry whose download attempts all fail contributes
exactly one error row carrying the intended local destination path, touches
neither the metrics CSV nor the output files, and the run proceeds to the
remaining source entries. -/
theorem retrieval_failure_logs_error_and_continues (O : String → Nat → Bool)
    (W : String → List WarcRecord) (N D : Nat) (line : String)
    (rest : List String) (st : RunState)
    (h : ∀ k < N, O (stripLine line) k = false) :
    runEntries O W N D (line :: rest) st =
      runEntries O W N D rest
        { st with errorCsv :=
            st.errorCsv ++ [ErrorEntry.row (localFilename (stripLine line))] } := by
  simp only [runEntries, processUrl, retryLoop_all_fail (O (stripLine line)) N D h]
  simp

/-- Witness for C7 at two always-failing attempts and one source entry. -/
theorem retrieval_failure_logs_error_and_continues_witness :
    (∀ k < 2, (fun (_ : String) (_ : Nat) => false) (stripLine "u") k = false) ∧
    runEntries (fun _ _ => false) (fun _ => []) 2 10 ["u"] ⟨[], [], []⟩ =
      runEntries (fun _ _ => false) (fun _ => []) 2 10 []
        { (⟨[], [], []⟩ : RunState) with errorCsv :=
            (⟨[], [], []⟩ : RunState).errorCsv ++
              [ErrorEntry.row (localFilename (stripLine "u"))] } :=
  ⟨by decide, retrieval_failure_logs_error_and_continues _ _ 2 10 "u" []
    ⟨[], [], []⟩ (by decide)⟩

/-- **C8.** A run's result does not depend on whatever the two CSV logs
held before the run (they are truncated first), and each final log starts
with its single header row — every later row is a data row. -/
theorem run_initializes_logs_with_headers (O : String → Nat → Bool)
    (W : String → List WarcRecord) (N D : Nat) (lines : List String)
    (st0 : RunState) (m0 : List MetricsEntry) (e0 : List ErrorEntry) :
    mainRun O W N D lines st0 =
      mainRun O W N D lines { st0 with metricsCsv := m0, errorCsv := e0 } ∧
    ∃ dm de,
      (mainRun O W N D lines st0).1.metricsCsv = MetricsEntry.header :: dm ∧
      (mainRun O W N D lines st0).1.errorCsv = ErrorEntry.header :: de ∧
      (∀ e ∈ dm, e ≠ MetricsEntry.header) ∧
      (∀ e ∈ de, e ≠ ErrorEntry.header) := by
  constructor
  · rfl
  · obtain ⟨dm, de, h1, h2, h3, h4⟩ :=
      runEntries_log_delta O W N D lines (initLogs st0)
    refine ⟨dm, de, ?_, ?_, h3, h4⟩
    · simpa [mainRun, initLogs] using h1
    · simpa [mainRun, initLogs] using h2

/-- **C9.** When the archive path has no token match but the scan accepts
at least one text block, the accepted text is written to no file, no
metrics row is appended, no error row is appended, and the conversion's
`NameError` escapes the driver: the run stops with the state untouched and
the remaining entries unprocessed. -/
theorem no_token_discards_text_and_raises (O : String → Nat → Bool)
    (W : String → List WarcRecord) (N D : Nat) (line : String)
    (rest : List String) (st : RunState)
    (htok : matchWarcToken (localFilename (stripLine line)) = none)
    (_hacc : acceptedTexts (W (stripLine line)) ≠ [])
    (hdl : O (stripLine line) 0 = true) (hN : 1 ≤ N) :
    runEntries O W N D (line :: rest) st = (st, some PyErr.nameError) := by
  simp only [runEntries, processUrl,
    retryLoop_first_success (O (stripLine line)) N D hdl hN,
    convert_no_token _ _ _ _ _ htok]
  simp

/-- Witness for C9: a one-entry run whose path has no token and whose
archive holds one accepted 40-character block. -/
theorem no_token_discards_text_and_raises_witness :
    matchWarcToken (localFilename (stripLine "u")) = none ∧
    acceptedTexts ((fun (_ : String) => [WarcRecord.mk "response"
        [Html.text (List.replicate 40 'അ')]]) (stripLine "u")) ≠ [] ∧
    runEntries (fun _ _ => true)
        (fun _ => [WarcRecord.mk "response"
          [Html.text (List.replicate 40 'അ')]]) 1 10 ["u"] ⟨[], [], []⟩ =
      (⟨[], [], []⟩, some PyErr.nameError) :=
  ⟨by decide, by decide,
    no_token_discards_text_and_raises _ _ 1 10 "u" [] ⟨[], [], []⟩
      (by decide) (by decide) (by decide) (by decide)⟩

/-- **C10.** The length threshold is applied to the space-joined string:
with `k ≥ 1` matched runs the filter accepts exactly when
(sum of the runs' lengths) + (k - 1) ≥ `minLength` — the joining spaces
count toward the threshold. -/
theorem threshold_counts_joining_spaces (doc : List Html) (minLen : Nat)
    (h : 1 ≤ (findallMalayalam (reducedText doc)).length) :
    ((process_and_check_malayalam_text doc minLen).isSome = true ↔
      ((findallMalayalam (reducedText doc)).map List.length).sum
        + ((findallMalayalam (reducedText doc)).length - 1) ≥ minLen) := by
  have hne : findallMalayalam (reducedText doc) ≠ [] := by
    intro h0
    rw [h0] at h
    simp at h
  have hlen := joinWith_length [' '] (findallMalayalam (reducedText doc)) hne
  simp only [List.length_cons, List.length_nil, Nat.zero_add, one_mul] at hlen
  simp only [process_and_check_malayalam_text]
  split_ifs with hif
  · simp only [Option.isSome_some, ge_iff_le, true_iff]
    rw [hlen] at hif
    exact hif
  · simp only [Option.isSome_none]
    rw [hlen] at hif
    constructor
    · intro hb
      exact absurd hb Bool.false_ne_true
    · intro hb
      exact absurd hb hif

/-- Witness for C10: two runs of one character each, threshold 3 — met
only because the joining space counts. -/
theorem threshold_counts_joining_spaces_witness :
    1 ≤ (findallMalayalam (reducedText [Html.text "അ ഇ".data])).length ∧
    ((process_and_check_malayalam_text [Html.text "അ ഇ".data] 3).isSome
        = true ↔
      ((findallMalayalam (reducedText [Html.text "അ ഇ".data])).map
          List.length).sum
        + ((findallMalayalam (reducedText [Html.text "അ ഇ".data])).length
          - 1) ≥ 3) :=
  ⟨by decide, threshold_counts_joining_spaces _ 3 (by decide)⟩

end MalExtract
